import Mathlib

/-!
Verification development for the corbit repository.

This file gives a shallow embedding, in Lean 4, of the parts of corbit that
the specification's testable properties talk about:

* `reviewer.py` — the reviewer-output recovery parser (`Reviewer._parse_review`,
  `Reviewer._extract_json`, `Reviewer._normalize_json_newlines`,
  `Reviewer._try_json_loads`), together with a model of Python's `json.loads`;
* `epic.py` / `linear.py` — `_topological_groups` (Kahn batching) and
  `_parse_implementation_order`;
* `stream.py` — the timeout branch of `run_streaming`;
* `orchestrator.py` — `_merge_step` and `_run_sequential`;
* `pipeline.py` — the review loop of `run_pipeline`, its resume logic and the
  terminal cleanup in its `finally` block.

Python functions become Lean functions; stateful or effectful code becomes
explicit state passing plus event traces; external processes (agents, git,
GitHub) become oracle inputs.  Machine-level details are documented at each
definition.  All definitions are executable and recursion is structural, so
concrete runs evaluate by `decide` / `rfl`.
-/

set_option maxHeartbeats 1000000

namespace Corbit

/-- Characters of a string literal, the representation used throughout the
JSON/text model. -/
def chrs (s : String) : List Char := s.data

/-! ## A model of Python's `json.loads`

`reviewer.py` leans on `json.loads` throughout; to embed `_parse_review` over
raw strings we model the stdlib JSON decoder.  Numbers are kept as their
lexeme (no claim compares numeric values).  Deliberate divergences, all
unreachable for the inputs any claim touches, are noted inline:
`NaN`/`Infinity` constants are not modelled, and a lone `\uXXXX` surrogate
(which Python would keep as a surrogate code point, unrepresentable in
Lean's `Char`) is replaced by U+FFFD. -/

/-- JSON values as produced by `json.loads`.  Object members are kept in
parse order; duplicate keys resolve to the last occurrence, as in a Python
dict built by the decoder. -/
inductive Json where
  | null
  | bool (b : Bool)
  | num (lexeme : List Char)
  | str (s : List Char)
  | arr (elems : List Json)
  | obj (members : List (List Char × Json))

/-- JSON whitespace (the decoder's `' \t\n\r'`). -/
def isJsonWs : Char → Bool
  | ' ' | '\t' | '\n' | '\r' => true
  | _ => false

/-- Skip JSON whitespace. -/
def skipJsonWs (cs : List Char) : List Char := cs.dropWhile isJsonWs

/-- Value of one hex digit, by code point: digits occupy 48–57, the
lowercase range 97–102 maps to 10–15 (offset 87), the uppercase range
65–70 likewise (offset 55). -/
def hexDigitVal (c : Char) : Option Nat :=
  let n := c.toNat
  if 48 ≤ n ∧ n ≤ 57 then some (n - 48)
  else if 97 ≤ n ∧ n ≤ 102 then some (n - 87)
  else if 65 ≤ n ∧ n ≤ 70 then some (n - 55)
  else none

/-- Value of a 4-digit hex escape. -/
def hex4 (a b c d : Char) : Option Nat :=
  match hexDigitVal a, hexDigitVal b, hexDigitVal c, hexDigitVal d with
  | some x, some y, some z, some w => some (((x * 16 + y) * 16 + z) * 16 + w)
  | _, _, _, _ => none

/-- The single-character JSON escapes (`\"`, `\\`, `\/`, `\b`, `\f`,
`\n`, `\r`, `\t`) with their decoded characters. -/
def jsonEscapeTable : List (Char × Char) :=
  [('"', '"'), ('\\', '\\'), ('/', '/'), ('b', Char.ofNat 8), ('f', Char.ofNat 12),
   ('n', '\n'), ('r', '\r'), ('t', '\t')]

/-- Decode one single-character escape through the table. -/
def jsonEscapeChar (c : Char) : Option Char :=
  (jsonEscapeTable.find? (fun q => q.1 == c)).map (fun q => q.2)

/-- Body of a JSON string after the opening quote: returns the decoded
content and the input after the closing quote.  Strict mode: an unescaped
control character below U+0020 (in particular a literal newline) is a parse
error, exactly the failure `_normalize_json_newlines` exists to repair.
Fuel only bounds the recursion; callers supply more than the input length,
which every step consumes at least one character of. -/
def parseStrBody : Nat → List Char → List Char → Option (List Char × List Char)
  | 0, _, _ => none
  | _, [], _ => none
  | _ + 1, '"' :: rest, acc => some (acc.reverse, rest)
  | fuel + 1, '\\' :: 'u' :: h1 :: h2 :: h3 :: h4 :: rest, acc =>
    match hex4 h1 h2 h3 h4 with
    | none => none
    | some n =>
      if 0xD800 ≤ n ∧ n ≤ 0xDBFF then
        match rest with
        | '\\' :: 'u' :: g1 :: g2 :: g3 :: g4 :: rest2 =>
          match hex4 g1 g2 g3 g4 with
          | none => none
          | some m =>
            if 0xDC00 ≤ m ∧ m ≤ 0xDFFF then
              parseStrBody fuel rest2
                (Char.ofNat (0x10000 + (n - 0xD800) * 0x400 + (m - 0xDC00)) :: acc)
            else
              -- lone high surrogate (Python keeps it; modelled as U+FFFD)
              parseStrBody fuel rest (Char.ofNat 0xFFFD :: acc)
        | _ => parseStrBody fuel rest (Char.ofNat 0xFFFD :: acc)
      else if 0xDC00 ≤ n ∧ n ≤ 0xDFFF then
        -- lone low surrogate (Python keeps it; modelled as U+FFFD)
        parseStrBody fuel rest (Char.ofNat 0xFFFD :: acc)
      else
        parseStrBody fuel rest (Char.ofNat n :: acc)
  | fuel + 1, '\\' :: e :: rest, acc =>
    match jsonEscapeChar e with
    | some c => parseStrBody fuel rest (c :: acc)
    | none => none
  | fuel + 1, c :: rest, acc =>
    if c.toNat < 0x20 then none else parseStrBody fuel rest (c :: acc)

/-- Longest run of decimal digits. -/
def digitsSpan (cs : List Char) : List Char × List Char := cs.span (·.isDigit)

/-- Integer part of a JSON number: `0` or a nonzero digit followed by
digits (the decoder's `(?:0|[1-9]\d*)`). -/
def lexInt : List Char → Option (List Char × List Char)
  | '0' :: r => some (['0'], r)
  | c :: r =>
    if c.isDigit then
      let (ds, r') := digitsSpan r
      some (c :: ds, r')
    else none
  | [] => none

/-- Optional fraction part (`(\.\d+)?`). -/
def lexFrac : List Char → List Char × List Char
  | '.' :: r =>
    let (ds, r') := digitsSpan r
    if ds.isEmpty then ([], '.' :: r) else ('.' :: ds, r')
  | cs => ([], cs)

/-- Optional exponent part (`([eE][-+]?\d+)?`). -/
def lexExp : List Char → List Char × List Char
  | c :: r =>
    if c == 'e' || c == 'E' then
      match r with
      | s :: r2 =>
        if s == '+' || s == '-' then
          let (ds, r3) := digitsSpan r2
          if ds.isEmpty then ([], c :: s :: r2) else (c :: s :: ds, r3)
        else
          let (ds, r3) := digitsSpan (s :: r2)
          if ds.isEmpty then ([], c :: s :: r2) else (c :: ds, r3)
      | [] => ([], [c])
    else ([], c :: r)
  | [] => ([], [])

/-- Lexeme of a JSON number starting at the head of the input. -/
def lexNum (cs : List Char) : Option (List Char × List Char) :=
  match cs with
  | '-' :: r =>
    (lexInt r).map fun (ds, r1) =>
      let (f, r2) := lexFrac r1
      let (e, r3) := lexExp r2
      ('-' :: (ds ++ f ++ e), r3)
  | _ =>
    (lexInt cs).map fun (ds, r1) =>
      let (f, r2) := lexFrac r1
      let (e, r3) := lexExp r2
      (ds ++ f ++ e, r3)

/-- Continuation kinds of the recursive-descent JSON reader: a value, the
elements of an array (first element still pending, or after a separator),
and the members of an object. -/
inductive JsonK where
  | val
  | arrFirst (acc : List Json)
  | arrSep (acc : List Json)
  | objFirst (acc : List (List Char × Json))
  | objKey (acc : List (List Char × Json))
  | objSep (acc : List (List Char × Json))

/-- Fueled recursive-descent JSON reader.  Fuel only bounds nesting of the
grammar; `jsonLoads` supplies more fuel than any input can consume. -/
def parseCore : Nat → JsonK → List Char → Option (Json × List Char)
  | 0, _, _ => none
  | fuel + 1, JsonK.val, cs =>
    match skipJsonWs cs with
    | 't' :: 'r' :: 'u' :: 'e' :: rest => some (.bool true, rest)
    | 'f' :: 'a' :: 'l' :: 's' :: 'e' :: rest => some (.bool false, rest)
    | 'n' :: 'u' :: 'l' :: 'l' :: rest => some (.null, rest)
    | '"' :: rest => (parseStrBody (rest.length + 1) rest []).map fun (s, r) => (.str s, r)
    | '[' :: rest => parseCore fuel (.arrFirst []) rest
    | '{' :: rest => parseCore fuel (.objFirst []) rest
    | c :: rest =>
      if c == '-' || c.isDigit then
        (lexNum (c :: rest)).map fun (lx, r) => (.num lx, r)
      else none
    | [] => none
  | fuel + 1, JsonK.arrFirst acc, cs =>
    match skipJsonWs cs with
    | ']' :: rest => some (.arr acc.reverse, rest)
    | cs' =>
      match parseCore fuel .val cs' with
      | some (v, rest) => parseCore fuel (.arrSep (v :: acc)) rest
      | none => none
  | fuel + 1, JsonK.arrSep acc, cs =>
    match skipJsonWs cs with
    | ']' :: rest => some (.arr acc.reverse, rest)
    | ',' :: rest =>
      match parseCore fuel .val rest with
      | some (v, rest') => parseCore fuel (.arrSep (v :: acc)) rest'
      | none => none
    | _ => none
  | fuel + 1, JsonK.objFirst acc, cs =>
    match skipJsonWs cs with
    | '}' :: rest => some (.obj acc.reverse, rest)
    | cs' => parseCore fuel (.objKey acc) cs'
  | fuel + 1, JsonK.objKey acc, cs =>
    match skipJsonWs cs with
    | '"' :: rest =>
      match parseStrBody (rest.length + 1) rest [] with
      | some (k, rest1) =>
        match skipJsonWs rest1 with
        | ':' :: rest2 =>
          match parseCore fuel .val rest2 with
          | some (v, rest3) => parseCore fuel (.objSep ((k, v) :: acc)) rest3
          | none => none
        | _ => none
      | none => none
    | _ => none
  | fuel + 1, JsonK.objSep acc, cs =>
    match skipJsonWs cs with
    | '}' :: rest => some (.obj acc.reverse, rest)
    | ',' :: rest => parseCore fuel (.objKey acc) rest
    | _ => none

/-- Model of Python's `json.loads`: parse one JSON document, allowing only
whitespace around it; anything else is "Extra data", a parse error. -/
def jsonLoads (cs : List Char) : Option Json :=
  match parseCore (2 * cs.length + 8) .val cs with
  | some (v, rest) => if (skipJsonWs rest).isEmpty then some v else none
  | none => none

/-- Member lookup on a decoded object: the decoder's dict keeps the last
occurrence of a duplicated key. -/
def jsGet (j : Json) (key : List Char) : Option Json :=
  match j with
  | .obj kvs => (kvs.reverse.find? (fun p => p.1 == key)).map (fun p => p.2)
  | _ => none

/-- Zero test on a number lexeme: zero iff the mantissa has no nonzero
digit.  (Floats that underflow to `0.0`, such as `1e-400`, are not
modelled; no claim involves numbers at all.) -/
def numLexIsZero (lex : List Char) : Bool :=
  (lex.takeWhile (fun c => !(c == 'e' || c == 'E'))).all
    (fun c => c == '-' || c == '+' || c == '0' || c == '.')

/-- Python truthiness of a decoded JSON value (`bool(x)`). -/
def jsonTruthy : Json → Bool
  | .null => false
  | .bool b => b
  | .num lex => !(numLexIsZero lex)
  | .str s => !s.isEmpty
  | .arr xs => !xs.isEmpty
  | .obj kvs => !kvs.isEmpty

/-- Truthiness of `dict.get`'s result, where a missing key gives `None`. -/
def optTruthy : Option Json → Bool
  | some j => jsonTruthy j
  | none => false

/-! ## Python text helpers used by `reviewer.py` -/

/-- ASCII whitespace as recognised by `str.strip()` and the regex class
`\s` (space, tab, newline, carriage return, vertical tab, form feed).
Exotic Unicode whitespace is not modelled; no corbit string constant nor
any claim input contains it. -/
def pyIsSpace : Char → Bool
  | ' ' | '\t' | '\n' | '\r' | '\x0B' | '\x0C' => true
  | _ => false

/-- `str.strip()`. -/
def stripPy (cs : List Char) : List Char :=
  ((cs.dropWhile pyIsSpace).reverse.dropWhile pyIsSpace).reverse

/-- `str.splitlines()` over the terminators `\r\n`, `\r` and `\n` (the
exotic terminators `\v`, `\f`, `\x1c`–`\x1e`, `\x85`, U+2028/9 are not
modelled; no claim input contains them).  A trailing terminator does not
produce a final empty line, matching Python. -/
def splitLinesPy : List Char → List Char → List (List Char)
  | [], acc => if acc.isEmpty then [] else [acc.reverse]
  | '\r' :: '\n' :: rest, acc => acc.reverse :: splitLinesPy rest []
  | '\r' :: rest, acc => acc.reverse :: splitLinesPy rest []
  | '\n' :: rest, acc => acc.reverse :: splitLinesPy rest []
  | c :: rest, acc => splitLinesPy rest (c :: acc)

/-- Does `pat` occur at the head of the input? -/
def headMatches : List Char → List Char → Bool
  | [], _ => true
  | _ :: _, [] => false
  | p :: ps, c :: cs => p == c && headMatches ps cs

/-- `str.find` / `str.index`: index of the first occurrence of `pat`, if
any. -/
def findSub (pat : List Char) : List Char → Option Nat
  | [] => if pat.isEmpty then some 0 else none
  | c :: cs =>
    if headMatches pat (c :: cs) then some 0
    else (findSub pat cs).map (· + 1)

/-! ## `reviewer.py` — data model and the recovery parser

Mirrors `ReviewVerdict`, `ReviewSeverity`, `ReviewItem` and `ReviewResult`
from `models.py` (the Pydantic models carry no validators, so they are
plain records here) and then `Reviewer._parse_review` with its helpers.
Two Python crash paths are made total, each noted where it occurs; both
are unreachable for every input a claim touches, and neither can produce
a `ReviewResult` in Python at all (the exception propagates). -/

/-- `models.ReviewVerdict`. -/
inductive ReviewVerdict' where
  | approved
  | changesRequested
  | error
deriving DecidableEq

/-- `models.ReviewSeverity`. -/
inductive ReviewSeverity' where
  | bug
  | correctness
  | design
  | testing
  | nit
deriving DecidableEq

/-- `models.ReviewItem`. -/
structure ReviewItem' where
  file : String
  comment : String
  severity : ReviewSeverity'
deriving DecidableEq

/-- `models.ReviewResult`. -/
structure ReviewResult' where
  verdict : ReviewVerdict'
  comments : String
  items : List ReviewItem'
deriving DecidableEq

/-- `ReviewVerdict(s)`: enum lookup by value string. -/
def verdictOfString (s : List Char) : Option ReviewVerdict' :=
  if s == chrs "approved" then some .approved
  else if s == chrs "changes-requested" then some .changesRequested
  else if s == chrs "error" then some .error
  else none

/-- `ReviewSeverity(s)`: enum lookup by value string. -/
def severityOfString (s : List Char) : Option ReviewSeverity' :=
  if s == chrs "bug" then some .bug
  else if s == chrs "correctness" then some .correctness
  else if s == chrs "design" then some .design
  else if s == chrs "testing" then some .testing
  else if s == chrs "nit" then some .nit
  else none

/-- `ReviewSeverity.value`. -/
def severityValue : ReviewSeverity' → String
  | .bug => "bug"
  | .correctness => "correctness"
  | .design => "design"
  | .testing => "testing"
  | .nit => "nit"

/-- `Reviewer._normalize_json_newlines`: quote-state scan that escapes
literal newline/carriage-return characters found inside a string value. -/
def normNlAux : List Char → Bool → Bool → List Char
  | [], _, _ => []
  | c :: rest, inString, escaped =>
    if escaped then c :: normNlAux rest inString false
    else if c == '\\' && inString then c :: normNlAux rest inString true
    else if c == '"' then c :: normNlAux rest (!inString) escaped
    else if c == '\n' && inString then '\\' :: 'n' :: normNlAux rest inString escaped
    else if c == '\r' && inString then '\\' :: 'r' :: normNlAux rest inString escaped
    else c :: normNlAux rest inString escaped

/-- `Reviewer._normalize_json_newlines` entry point (flags start false). -/
def normalizeJsonNewlines (cs : List Char) : List Char := normNlAux cs false false

/-- `Reviewer._try_json_loads`: `json.loads` accepting only a dict. -/
def tryJsonLoads (cs : List Char) : Option Json :=
  match jsonLoads cs with
  | some (Json.obj kvs) => some (Json.obj kvs)
  | _ => none

/-- One (candidate, marker) attempt of the code-fence tier of
`Reviewer._extract_json`: if the marker occurs, take the text up to the
next triple backtick, strip it and try it as JSON; a missing closing fence
is the `ValueError` branch, which just moves on. -/
def fenceTry (marker cs : List Char) : Option Json :=
  match findSub marker cs with
  | none => none
  | some i =>
    let afterStart := cs.drop (i + marker.length)
    match findSub (chrs "```") afterStart with
    | none => none
    | some j => tryJsonLoads (stripPy (afterStart.take j))

/-- Brace-scan tier of `Reviewer._extract_json`: from every occurrence of
an opening brace, try the whole remaining suffix as JSON. -/
def braceScan : List Char → Option Json
  | [] => none
  | c :: rest =>
    if c == '{' then
      match tryJsonLoads (c :: rest) with
      | some d => some d
      | none => braceScan rest
    else braceScan rest

/-- `Reviewer._extract_json`: direct parse, then newline-normalised parse,
then code fences (raw and normalised, ```json before ```), then the brace
scan (raw then normalised). -/
def extractJson (text : List Char) : Option Json :=
  match tryJsonLoads text with
  | some d => some d
  | none =>
    let norm := normalizeJsonNewlines text
    match tryJsonLoads norm with
    | some d => some d
    | none =>
      match fenceTry (chrs "```json") text with
      | some d => some d
      | none =>
        match fenceTry (chrs "```") text with
        | some d => some d
        | none =>
          match fenceTry (chrs "```json") norm with
          | some d => some d
          | none =>
            match fenceTry (chrs "```") norm with
            | some d => some d
            | none =>
              match braceScan text with
              | some d => some d
              | none => braceScan norm

/-- One `content` block of an `assistant` event: its text when the block is
a dict of type `"text"` with a non-empty string `text` field. -/
def textOfBlock (b : Json) : Option (List Char) :=
  match b with
  | .obj _ =>
    match jsGet b (chrs "type") with
    | some (.str t) =>
      if t == chrs "text" then
        match jsGet b (chrs "text") with
        | some (.str s) => if s.isEmpty then none else some s
        | _ => none
      else none
    | _ => none
  | _ => none

/-- Candidate collection for one stripped, non-empty JSONL line of
`Reviewer._parse_review`: a `result` event's non-empty string `result`
field is inserted at the front of the running candidate list, each text
block of an `assistant` event is appended at the back.  (A line whose JSON
is not an object would raise `AttributeError` in Python — no result at
all; modelled as skipping the line.) -/
def candidatesOfLine (line : List Char) (acc : List (List Char)) : List (List Char) :=
  match jsonLoads line with
  | none => acc
  | some ev =>
    match ev with
    | .obj _ =>
      match jsGet ev (chrs "type") with
      | some (.str t) =>
        if t == chrs "result" then
          match jsGet ev (chrs "result") with
          | some (.str s) => if s.isEmpty then acc else s :: acc
          | _ => acc
        else if t == chrs "assistant" then
          match jsGet ev (chrs "message") with
          | some msg =>
            match msg with
            | .obj _ =>
              match jsGet msg (chrs "content") with
              | some (.arr blocks) => acc ++ blocks.filterMap textOfBlock
              | _ => acc
            | _ => acc
          | none => acc
        else acc
      | _ => acc
    | _ => acc

/-- The candidate texts of `Reviewer._parse_review` (lines 276–308): JSONL
events first; when none yields a candidate, the whole-output fallback that
prefers a truthy `result` (then `output`) string field of a directly
parsed JSON object, else the raw text itself.  (Python would raise
`AttributeError` when the whole output parses to a non-dict JSON value;
modelled as falling back to the raw text.) -/
def collectCandidates (raw : List Char) : List (List Char) :=
  let cands := (splitLinesPy raw []).foldl
    (fun acc l =>
      let s := stripPy l
      if s.isEmpty then acc else candidatesOfLine s acc)
    []
  if cands.isEmpty then
    match jsonLoads raw with
    | some outer =>
      match outer with
      | .obj _ =>
        let r1 := jsGet outer (chrs "result")
        let r2 := jsGet outer (chrs "output")
        let fb : Option Json := if optTruthy r1 then r1 else if optTruthy r2 then r2 else none
        match fb with
        | some (.str s) => [s]
        | _ => [raw]
      | _ => [raw]
    | none => [raw]
  else cands

/-- First candidate from which `_extract_json` recovers a JSON object. -/
def firstExtract : List (List Char) → Option Json
  | [] => none
  | c :: rest =>
    match extractJson c with
    | some d => some d
    | none => firstExtract rest

/-- String field of a decoded object with a default, as used for
`raw_item.get("file", "")` and `raw_item.get("comment", "")`.  (A present
non-string value would make Pydantic raise in Python — no result at all;
modelled as the default.) -/
def getStrD (j : Json) (key : List Char) : String :=
  match jsGet j key with
  | some (.str s) => String.mk s
  | _ => ""

/-- One element of the `items` array (lines 331–341): non-dict elements
are skipped; a missing/unknown/non-string severity falls back to
`correctness`. -/
def itemOfJson (x : Json) : Option ReviewItem' :=
  match x with
  | .obj _ =>
    some
      { file := getStrD x (chrs "file")
        comment := getStrD x (chrs "comment")
        severity :=
          match jsGet x (chrs "severity") with
          | some (.str s) => (severityOfString s).getD .correctness
          | some _ => .correctness
          | none => .correctness }
  | _ => none

/-- Feedback line for one item:
`f"- [{item.severity.value}] {item.file}: {item.comment}"`. -/
def fmtItem (it : ReviewItem') : String :=
  "- [" ++ severityValue it.severity ++ "] " ++ it.file ++ ": " ++ it.comment

/-- Lines 324–328 of `_parse_review`: the verdict before the guard —
`data.get("verdict", "error")` through `ReviewVerdict(...)`, with unknown
or non-string values becoming `error` via the `ValueError` handler. -/
def verdictRaw (data : Json) : ReviewVerdict' :=
  match jsGet data (chrs "verdict") with
  | some (.str s) => (verdictOfString s).getD .error
  | some _ => .error
  | none => .error

/-- Lines 330–341 of `_parse_review`: the items list. -/
def itemsOfData (data : Json) : List ReviewItem' :=
  match jsGet data (chrs "items") with
  | some (.arr xs) => xs.filterMap itemOfJson
  | _ => []

/-- Lines 343–350 of `_parse_review`: coder feedback built from all items,
else the `comments` field. -/
def commentsOfData (data : Json) : String :=
  if (itemsOfData data).isEmpty then
    match jsGet data (chrs "comments") with
    | some (.str s) => String.mk s
    | _ => ""
  else String.intercalate "\n" ((itemsOfData data).map fmtItem)

/-- Final stage of `Reviewer._parse_review` (lines 324–362): verdict,
items and feedback as above, plus the guard (lines 352–356) that
overrides an `approved` verdict to `changes-requested` whenever items are
present. -/
def reviewFromData (data : Json) : ReviewResult' :=
  { verdict :=
      if verdictRaw data = ReviewVerdict'.approved ∧ ¬(itemsOfData data).isEmpty then
        ReviewVerdict'.changesRequested
      else verdictRaw data
    comments := commentsOfData data
    items := itemsOfData data }

/-- Lines 317–322 of `_parse_review`: the result when no candidate yields
a JSON object — an `error` verdict quoting up to 500 characters of the
first candidate (or of the raw text when there is none). -/
def parseFailResult (raw : List Char) : ReviewResult' :=
  let dbg := match collectCandidates raw with | [] => raw | c :: _ => c
  { verdict := .error
    comments := String.mk (chrs "Could not parse reviewer output: " ++ dbg.take 500)
    items := [] }

/-- `Reviewer._parse_review` over the raw streamed text. -/
def parseReviewChars (raw : List Char) : ReviewResult' :=
  match firstExtract (collectCandidates raw) with
  | some data => reviewFromData data
  | none => parseFailResult raw

/-- `Reviewer._parse_review` on a `String`. -/
def parseReview (raw : String) : ReviewResult' := parseReviewChars raw.data

/-! ## `epic.py` / `linear.py` — `_topological_groups`

`epic.py:117` and `linear.py:130` hold the same Kahn batching, over `int`
and `str` keys respectively; `epic.py` additionally guards each in-degree
decrement with `if any(d in ready for d in dependencies[m])`, a no-op
difference since the subtracted count is zero exactly when that guard is
false.  We embed the guarded `epic.py` version over `Nat` keys.  The
dependency dict becomes an association list; Python's `set` of remaining
nodes is kept as an ascending duplicate-free list, so each `sorted(...)`
of a subset of it is a `filter` of it. -/

/-- `dependencies[n]` (empty for a missing key; a dict with the claims'
well-formed inputs has each key once). -/
def depsOf (deps : List (Nat × List Nat)) (n : Nat) : List Nat :=
  match deps.find? (fun p => p.1 == n) with
  | some p => p.2
  | none => []

/-- `sum(1 for d in ds if d in s)`. -/
def countIn (s : List Nat) (ds : List Nat) : Nat :=
  ds.countP (fun d => s.contains d)

/-- In-degree lookup, `in_degree[m]` (0 for a missing key; every key that
is read has an entry). -/
def alookup (indeg : List (Nat × Nat)) (n : Nat) : Nat :=
  match indeg.find? (fun p => p.1 == n) with
  | some p => p.2
  | none => 0

/-- Insertion into an ascending list. -/
def insertSorted (n : Nat) : List Nat → List Nat
  | [] => [n]
  | m :: t => if n ≤ m then n :: m :: t else m :: insertSorted n t

/-- Python's `sorted` on a list of naturals (insertion sort; ascending). -/
def sortNat (l : List Nat) : List Nat := l.foldr insertSorted []

/-- One round of in-degree decrements (`epic.py` lines 137–141): for each
still-remaining node with a dependency among `ready`, subtract the number
of its dependencies that are in `ready`. -/
def decIndeg (deps : List (Nat × List Nat)) (ready remaining' : List Nat)
    (indeg : List (Nat × Nat)) : List (Nat × Nat) :=
  indeg.map (fun p =>
    if remaining'.contains p.1 && (depsOf deps p.1).any (fun d => ready.contains d) then
      (p.1, p.2 - countIn ready (depsOf deps p.1))
    else p)

/-- The `while remaining:` loop of `_topological_groups`.  Fuel only bounds
the iteration count; `topologicalGroups` passes one more than the node
count, and each iteration that recurses strictly shrinks `remaining`. -/
def kahnLoop (deps : List (Nat × List Nat)) :
    Nat → List (Nat × Nat) → List Nat → List (List Nat)
  | 0, _, _ => []
  | fuel + 1, indeg, remaining =>
    if remaining.isEmpty then []
    else
      let ready := remaining.filter (fun n => alookup indeg n == 0)
      if ready.isEmpty then [remaining]
      else
        let remaining' := remaining.filter (fun n => !(ready.contains n))
        ready :: kahnLoop deps fuel (decIndeg deps ready remaining' indeg) remaining'

/-- `set(dependencies.keys())`, deduplicated key list. -/
def nodesOf (deps : List (Nat × List Nat)) : List Nat :=
  (deps.map (fun p => p.1)).dedup

/-- `_topological_groups` (`epic.py` lines 117–143): initial in-degrees
count only dependencies that are themselves keys, then Kahn batching. -/
def topologicalGroups (deps : List (Nat × List Nat)) : List (List Nat) :=
  let issues := nodesOf deps
  let indeg := issues.map (fun n => (n, countIn issues (depsOf deps n)))
  kahnLoop deps (issues.length + 1) indeg (sortNat issues)

/-- Acyclicity of the dependency graph induced by the map, witnessed by a
topological ranking: every dependency edge between nodes of the map
strictly decreases the rank.  For a finite graph this is equivalent to the
absence of directed cycles. -/
def AcyclicRank (deps : List (Nat × List Nat)) (rank : Nat → Nat) : Prop :=
  ∀ n ∈ nodesOf deps, ∀ d ∈ depsOf deps n, d ∈ nodesOf deps → rank d < rank n

/-- The loop invariant of the embedded Kahn batching: the tracked
in-degree of every still-remaining node counts exactly its dependencies
that are still remaining. -/
def KahnInv (deps : List (Nat × List Nat)) (indeg : List (Nat × Nat))
    (remaining : List Nat) : Prop :=
  ∀ m ∈ remaining, alookup indeg m = countIn remaining (depsOf deps m)

/-- The spec's layering property of a group list: every dependency (within
`scope`) of a member of group `i` lies in some strictly earlier group. -/
def GroupsOrdered (deps : List (Nat × List Nat)) (scope : List Nat)
    (gs : List (List Nat)) : Prop :=
  ∀ (i : Nat) (g : List Nat), gs[i]? = some g →
    ∀ n ∈ g, ∀ d ∈ depsOf deps n, d ∈ scope →
      ∃ (j : Nat) (gp : List Nat), j < i ∧ gs[j]? = some gp ∧ d ∈ gp

/-! ## `epic.py` — `_parse_implementation_order`

The regular expressions of `_parse_implementation_order` (`epic.py` lines
41–67) are compiled here into direct scanners with the exact search /
backtracking semantics of `re` on these patterns:
`###?\s+Suggested Implementation Order\s*\n(.*?)(?=\n##|\Z)` with
DOTALL and IGNORECASE, `^\d+[.)]\s+`, the separator
`\s+[—–-]{1,2}\s+` (leftmost match, `maxsplit=1`), and `#(\d+)`. -/

/-- Case-insensitive match of the literal title at the head of the input,
returning the rest.  (`re.IGNORECASE` over ASCII letters.) -/
def matchTitleCI : List Char → List Char → Option (List Char)
  | [], cs => some cs
  | _ :: _, [] => none
  | t :: ts, c :: cs => if c.toLower == t.toLower then matchTitleCI ts cs else none

/-- After the hashes: `\s+` (greedy; the title starts with a non-space, so
no backtracking arises), the title, then `\s*\n` — with backtracking the
greedy `\s*` ends just before the last newline of the whitespace run, so
the capture group starts right after that newline. -/
def matchHeaderTail (cs : List Char) : Option (List Char) :=
  if (cs.takeWhile pyIsSpace).isEmpty then none
  else
    match matchTitleCI (chrs "Suggested Implementation Order") (cs.dropWhile pyIsSpace) with
    | none => none
    | some afterTitle =>
      let ws := afterTitle.takeWhile pyIsSpace
      match (ws.reverse.findIdx? (· == '\n')).map (fun i => ws.length - 1 - i) with
      | none => none
      | some k => some (afterTitle.drop (k + 1))

/-- `###?` at the head: greedy `#?` tries three hashes before two. -/
def matchHeaderAt (cs : List Char) : Option (List Char) :=
  match cs with
  | '#' :: '#' :: rest =>
    (match rest with
     | '#' :: rest2 => matchHeaderTail rest2
     | _ => none).orElse (fun _ => matchHeaderTail rest)
  | _ => none

/-- `re.search`: try the header pattern at every position, leftmost first,
returning where the capture group starts. -/
def findHeaderFrom : List Char → Option (List Char)
  | [] => none
  | c :: rest =>
    match matchHeaderAt (c :: rest) with
    | some capStart => some capStart
    | none => findHeaderFrom rest

/-- The lazy capture `(.*?)(?=\n##|\Z)`: everything up to the first
`\n##`, or the whole remainder. -/
def captureBlock (cs : List Char) : List Char :=
  match findSub (chrs "\n##") cs with
  | some i => cs.take i
  | none => cs

/-- The captured "Suggested Implementation Order" section of an issue
body, when the section regex matches. -/
def sectionCapture (body : List Char) : Option (List Char) :=
  (findHeaderFrom body).map captureBlock

/-- `re.match(r'^\d+[.)]\s+', line)` on an already-stripped line. -/
def isNumberedLine (l : List Char) : Bool :=
  let (ds, r) := digitsSpan l
  !ds.isEmpty &&
    (match r with
     | c :: r2 =>
       (c == '.' || c == ')') &&
         (match r2 with
          | c2 :: _ => pyIsSpace c2
          | [] => false)
     | [] => false)

/-- The dash class `[—–-]` (em dash, en dash, hyphen). -/
def isDashChar (c : Char) : Bool := c == '—' || c == '–' || c == '-'

/-- Does `\s+[—–-]{1,2}\s+` match at the head of the input?  The leading
`\s+` is maximal (a dash is not whitespace, so shortening it cannot
help); `{1,2}` is greedy, and after two dashes the one-dash backtrack
would place `\s+` on the second dash, which always fails. -/
def sepMatchesAt (cs : List Char) : Bool :=
  let ws1 := cs.takeWhile pyIsSpace
  if ws1.isEmpty then false
  else
    match cs.drop ws1.length with
    | d1 :: rest1 =>
      isDashChar d1 &&
        (match rest1 with
         | d2 :: rest2 =>
           if isDashChar d2 then !(rest2.takeWhile pyIsSpace).isEmpty
           else !(rest1.takeWhile pyIsSpace).isEmpty
         | [] => false)
    | [] => false

/-- `re.split(sep, line, maxsplit=1)[0]`: the prefix before the leftmost
separator match (the whole line when none matches). -/
def headerPartAux : List Char → List Char → List Char
  | [], acc => acc.reverse
  | c :: rest, acc =>
    if sepMatchesAt (c :: rest) then acc.reverse else headerPartAux rest (c :: acc)

/-- The "header" portion of one numbered line, before the dash separator. -/
def headerPart (l : List Char) : List Char := headerPartAux l []

/-- Digits to a natural number (`int` on a digit string). -/
def natOfDigits (ds : List Char) : Nat :=
  ds.foldl (fun n c => n * 10 + (c.toNat - '0'.toNat)) 0

/-- `re.findall(r'#(\d+)', text)`: every `#`-prefixed number, scanning
left to right without overlap.  Fuel only bounds the recursion; `findRefs`
supplies more than the input length, at least one character of which every
step consumes. -/
def findRefsAux : Nat → List Char → List Nat
  | 0, _ => []
  | _ + 1, [] => []
  | fuel + 1, '#' :: rest =>
    let (ds, r) := digitsSpan rest
    if ds.isEmpty then findRefsAux fuel rest else natOfDigits ds :: findRefsAux fuel r
  | fuel + 1, _ :: rest => findRefsAux fuel rest

/-- `re.findall(r'#(\d+)', text)`. -/
def findRefs (cs : List Char) : List Nat := findRefsAux (cs.length + 1) cs

/-- Group extraction from one line of the captured section: strip, keep
numbered lines, collect the refs of the header portion, skip the line
when it has none. -/
def lineGroup (line : List Char) : Option (List Nat) :=
  let s := stripPy line
  if !isNumberedLine s then none
  else
    let refs := findRefs (headerPart s)
    if refs.isEmpty then none else some refs

/-- `_parse_implementation_order` (`epic.py` lines 41–67): `None` when the
section regex does not match or no group was collected (`groups or
None`). -/
def parseImplementationOrder (body : List Char) : Option (List (List Nat)) :=
  match sectionCapture body with
  | none => none
  | some block =>
    let groups := (splitLinesPy block []).filterMap lineGroup
    if groups.isEmpty then none else some groups

/-- Follows the spec's words, for comparison with
`parseImplementationOrder` (refinement check): "each numbered line becomes
one group whose members are exactly the issue references appearing before
the dash-style separator on that line" — including a line whose header
carries no reference, which under these words becomes an empty group. -/
def specSuggestedOrderGroups (body : List Char) : List (List Nat) :=
  match sectionCapture body with
  | none => []
  | some block =>
    (((splitLinesPy block []).map stripPy).filter isNumberedLine).map
      (fun s => findRefs (headerPart s))

/-! ## `stream.py` — the timeout branch of `run_streaming`

`run_streaming` spawns the subprocess with `start_new_session=True`, so
the child leads a fresh process group which its own children join.  The
group is modelled by whether that leader is alive plus the number of other
live members.  The concurrency of the reader tasks is not modelled; the
claims here concern only what the `except asyncio.TimeoutError:` handler
(lines 248–255) and the `except asyncio.CancelledError:` handler (lines
256–264) do. -/

/-- A process group: the direct child (leader) and however many further
processes it spawned into the group. -/
structure ProcGroup where
  leaderAlive : Bool
  otherMembers : Nat
deriving DecidableEq

/-- `proc.kill()` — SIGKILL to the direct child's pid only; other members
of its process group are not signalled. -/
def procKill (s : ProcGroup) : ProcGroup :=
  { s with leaderAlive := false }

/-- `os.killpg(os.getpgid(proc.pid), sig)` — the signal reaches every
member of the process group. -/
def osKillpg (_s : ProcGroup) : ProcGroup :=
  { leaderAlive := false, otherMembers := 0 }

/-- `stream.StreamResult`. -/
structure StreamResult' where
  returncode : Int
  stdout : String
  stderr : String
deriving DecidableEq

/-- How `run_streaming` finishes: a returned `StreamResult`, or the
`KeyboardInterrupt` raised on user abort. -/
inductive StreamOutcome where
  | ok (r : StreamResult')
  | aborted
deriving DecidableEq

/-- The `except asyncio.TimeoutError:` handler of `run_streaming` (lines
248–255): `proc.kill()`, `await proc.wait()`, then return the sentinel
result with `returncode=-1`, the stdout gathered so far, and stderr
`"Agent timed out"` — a normal return, never an exception. -/
def runStreamingOnTimeout (s : ProcGroup) (stdoutSoFar : String) :
    ProcGroup × StreamOutcome :=
  (procKill s, .ok { returncode := -1, stdout := stdoutSoFar, stderr := "Agent timed out" })

/-- The `except asyncio.CancelledError:` handler (lines 256–264): when the
child is still running, `os.killpg(..., SIGKILL)`; then re-raise as
`KeyboardInterrupt` — the distinguished abort condition. -/
def runStreamingOnCancel (s : ProcGroup) : ProcGroup × StreamOutcome :=
  (if s.leaderAlive then osKillpg s else s, .aborted)

/-! ## `orchestrator.py` — `_merge_step` and `_run_sequential`

`MergeStrategy` is imported from `corbit.models` by `orchestrator.py`,
`config.py` and `cli.py` but its definition is absent from the sources, so
the enum itself is modelled from the spec; everything below that enum is
embedded from `orchestrator.py`.  `run_pipeline` performs external I/O, so
sequential dispatch takes the per-issue pipeline results as an input list,
and the external calls (`merge_pr`, `poll_pr_merged`, the fast-forward of
the local base branch, and each pipeline launch) are recorded as an
ordered event trace. -/

/-- Modelled from the spec: the `MergeStrategy` enum (`auto`/`wait`/`skip`)
is missing from `models.py` although three modules import it from there;
the spec fixes its three values ("auto: merge immediately using the
configured method; wait: poll the remote at a fixed interval until merged;
skip: leave open"), and the CLI help string lists the same three. -/
inductive MergeStrategy' where
  | auto
  | wait
  | skip
deriving DecidableEq

/-- `models.MergeMethod`. -/
inductive MergeMethod' where
  | squash
  | merge
  | rebase
deriving DecidableEq

/-- `models.PipelineStatus`. -/
inductive PipelineStatus' where
  | pending
  | fetching
  | implementing
  | reviewing
  | approved
  | merged
  | failed
deriving DecidableEq

/-- `models.PullRequestInfo`, the fields the dispatcher reads. -/
structure PullRequestInfo' where
  number : Nat
  url : String
deriving DecidableEq

/-- The slice of `models.PipelineState` that `_merge_step` and
`_run_sequential` read and write. -/
structure OrchState where
  issueSlug : String
  status : PipelineStatus'
  pr : Option PullRequestInfo'
deriving DecidableEq

/-- The slice of `models.CorbitConfig` that sequential dispatch reads
(`merge_strategy` is the spec-modelled field missing from `models.py`). -/
structure OrchConfig where
  mergeStrategy : MergeStrategy'
  mergeMethod : MergeMethod'
  mainBranch : String

/-- External calls of sequential dispatch, in program order. -/
inductive DispatchEvent where
  | runPipelineCall (slug : String)
  | mergePRCall (number : Nat) (method : MergeMethod')
  | pollUntilMergedCall (number : Nat)
  | updateMainCall (branch : String)
deriving DecidableEq

/-- `_merge_step` (`orchestrator.py` lines 84–118): nothing under `skip`
or without a PR; otherwise merge (`auto`) or poll until merged (`wait`),
mark the state `merged`, fast-forward the local base branch
(`_update_main`), and report `True`. -/
def mergeStep (cfg : OrchConfig) (st : OrchState) :
    OrchState × Bool × List DispatchEvent :=
  if cfg.mergeStrategy = MergeStrategy'.skip ∨ st.pr = none then (st, false, [])
  else
    match st.pr with
    | none => (st, false, [])
    | some pr =>
      match cfg.mergeStrategy with
      | .auto =>
        ({ st with status := .merged }, true,
          [.mergePRCall pr.number cfg.mergeMethod, .updateMainCall cfg.mainBranch])
      | _ =>
        -- the source's `else:  # WAIT` (skip is excluded by the guard)
        ({ st with status := .merged }, true,
          [.pollUntilMergedCall pr.number, .updateMainCall cfg.mainBranch])

/-- `_run_sequential` (`orchestrator.py` lines 38–73) over the list of
per-issue pipeline outcomes: each issue's pipeline runs, a non-approved
outcome skips the merge phase, an approved one goes through `_merge_step`
(whose in-place state mutation shows up in the returned list). -/
def runSequential (cfg : OrchConfig) : List OrchState → List OrchState × List DispatchEvent
  | [] => ([], [])
  | st :: rest =>
    if st.status ≠ PipelineStatus'.approved then
      let r := runSequential cfg rest
      (st :: r.1, .runPipelineCall st.issueSlug :: r.2)
    else
      let m := mergeStep cfg st
      let r := runSequential cfg rest
      (m.1 :: r.1, .runPipelineCall st.issueSlug :: (m.2.2 ++ r.2))

/-- Follows the spec's words, for comparison with the dispatch trace
(refinement check): the external effects the merge policy performs for one
approved issue with PR `pr` — `auto` merges with the configured method
then fast-forwards the base branch, `wait` polls until merged then
fast-forwards, `skip` leaves the PR open. -/
def specPolicyEvents (cfg : OrchConfig) (pr : PullRequestInfo') : List DispatchEvent :=
  match cfg.mergeStrategy with
  | .auto => [.mergePRCall pr.number cfg.mergeMethod, .updateMainCall cfg.mainBranch]
  | .wait => [.pollUntilMergedCall pr.number, .updateMainCall cfg.mainBranch]
  | .skip => []

/-! ## `pipeline.py` — review loop, resume and terminal cleanup

The review phase of `run_pipeline` (lines 322–524) is embedded as a
recursive function over the configuration, the checkpoint loaded from the
worktree (`_load_state`), the coder and reviewer as oracles (the k-th
`apply_feedback` call and the k-th `review` call), and the in-flight
`PipelineState` slice.  External calls are recorded as an ordered trace.
Fire-and-forget Linear notifications (`_maybe_post_linear_comment`) and
the `config.debug` confirmation prompts are no-ops for the configurations
considered (GitHub issues, `debug=False`) and are not recorded; session-id
bookkeeping only feeds strings back into those calls and checkpoint
payloads and is not modelled. -/

/-- `models.IterationMode`. -/
inductive IterationMode' where
  | full
  | singlePass
deriving DecidableEq

/-- The slice of `models.CorbitConfig` the review phase reads. -/
structure PipeConfig where
  maxReviewRounds : Nat
  iterationMode : IterationMode'

/-- The checkpoint fields read on resume (`saved.get("step", "")`,
`saved.get("review_round", 1)`, `saved.get("review_comments", "")`). -/
structure SavedState where
  step : String
  reviewRound : Nat
  reviewComments : String

/-- `models.AgentResult`. -/
structure AgentResult' where
  success : Bool
  output : String
  error : String
deriving DecidableEq

/-- External calls of the review phase, in program order. -/
inductive PipeEvent where
  | gitSyncEv
  | reviewRequest (round : Nat)
  | applyFeedbackCall (feedback : String) (round : Nat)
  | checkpointWrite (step : String) (round : Nat) (comments : String)
deriving DecidableEq

/-- The slice of `models.PipelineState` the review phase reads and
writes. -/
structure PipeState where
  status : PipelineStatus'
  currentRound : Nat
  reviewHistory : List ReviewResult'
  error : String
deriving DecidableEq

/-- The `for round_num in range(start_round, max_review_rounds + 1)` loop
(`pipeline.py` lines 342–524).  Fuel is the exact number of remaining
iterations, `max_review_rounds + 1 - round_num`; exhausting it is the
fall-through to the "Exhausted N review rounds without approval" failure
(lines 516–518).  A non-empty `pending` feedback (only possible on resume
from a `reviewed` checkpoint) is applied first, checkpointing
`feedback_applied` and continuing to the next round; otherwise the round
syncs git, requests a review, appends it to the history, and acts on the
verdict. -/
def reviewLoop (cfg : PipeConfig) (ap : Nat → AgentResult') (rv : Nat → ReviewResult') :
    Nat → Nat → Nat → Nat → String → String → PipeState → PipeState × List PipeEvent
  | 0, _, _, _, _, _, st =>
    ({ st with
        status := .failed
        error := "Exhausted " ++ toString cfg.maxReviewRounds ++ " review rounds without approval" },
     [])
  | fuel + 1, roundNum, applyIdx, revIdx, pending, last, st =>
    if pending ≠ "" then
      let res := ap applyIdx
      if ¬res.success then
        ({ st with
            status := .failed
            error := "Coder agent failed on feedback: " ++ res.error },
         [.applyFeedbackCall pending roundNum])
      else
        let r := reviewLoop cfg ap rv fuel (roundNum + 1) (applyIdx + 1) revIdx "" last
          { st with status := .implementing }
        (r.1, .applyFeedbackCall pending roundNum ::
          .checkpointWrite "feedback_applied" roundNum last :: r.2)
    else
      let st1 : PipeState := { st with status := .reviewing, currentRound := roundNum }
      let review := rv revIdx
      let st2 : PipeState := { st1 with reviewHistory := st1.reviewHistory ++ [review] }
      match review.verdict with
      | .approved =>
        ({ st2 with status := .approved }, [.gitSyncEv, .reviewRequest roundNum])
      | .error =>
        ({ st2 with
            status := .failed
            error := "Reviewer error: " ++ review.comments },
         [.gitSyncEv, .reviewRequest roundNum])
      | .changesRequested =>
        let res := ap applyIdx
        if ¬res.success then
          ({ st2 with
              status := .failed
              error := "Coder agent failed on feedback: " ++ res.error },
           [.gitSyncEv, .reviewRequest roundNum,
            .checkpointWrite "reviewed" roundNum review.comments,
            .applyFeedbackCall review.comments roundNum])
        else
          let r := reviewLoop cfg ap rv fuel (roundNum + 1) (applyIdx + 1) (revIdx + 1)
            "" review.comments { st2 with status := .implementing }
          (r.1, .gitSyncEv :: .reviewRequest roundNum ::
            .checkpointWrite "reviewed" roundNum review.comments ::
            .applyFeedbackCall review.comments roundNum ::
            .checkpointWrite "feedback_applied" roundNum review.comments :: r.2)

/-- The review phase of `run_pipeline` (lines 322–524): single-pass mode
returns `approved` without any review (lines 322–328); otherwise the
resume point is computed from the checkpoint (lines 330–340: a `reviewed`
step re-enters at the stored round with its comments pending, a
`feedback_applied` step re-enters at the next round) and the loop runs. -/
def reviewPhase (cfg : PipeConfig) (saved : SavedState)
    (ap : Nat → AgentResult') (rv : Nat → ReviewResult') (st : PipeState) :
    PipeState × List PipeEvent :=
  if cfg.iterationMode = IterationMode'.singlePass then
    ({ st with status := .approved }, [])
  else
    let startRound :=
      if saved.step = "reviewed" then saved.reviewRound
      else if saved.step = "feedback_applied" then saved.reviewRound + 1
      else 1
    let pending := if saved.step = "reviewed" then saved.reviewComments else ""
    let last :=
      if saved.step = "reviewed" then saved.reviewComments
      else if saved.step = "feedback_applied" then saved.reviewComments
      else ""
    reviewLoop cfg ap rv (cfg.maxReviewRounds + 1 - startRound) startRound 0 0 pending last st

/-- The files a pipeline run leaves behind in its workspace: the
checkpoint file (`.corbit-state.json`) and the worktree itself. -/
structure WorkspaceFS where
  checkpointExists : Bool
  worktreeExists : Bool
deriving DecidableEq

/-- The `finally:` block of `run_pipeline` (lines 541–553): when the run
holds a worktree and ended `approved` or `merged`, the checkpoint file is
unlinked (when present) and the worktree removed; any other terminal
status leaves both untouched.  (`remove_worktree` failures are swallowed
by the code; removal is modelled as succeeding.) -/
def finalizeCleanup (status : PipelineStatus') (hasWorktree : Bool)
    (fs : WorkspaceFS) : WorkspaceFS :=
  if hasWorktree &&
      (status == PipelineStatus'.approved || status == PipelineStatus'.merged) then
    { checkpointExists := false, worktreeExists := false }
  else fs

/-! ## Concrete inputs used by the theorems -/

/-- The raw reviewer output of the spec's Scenario B:
`{"verdict":"changes-requested","items":[{"file":"a","severity":"nit","comment":"x"}]}`. -/
def scenarioBRaw : String :=
  "\x7b\"verdict\":\"changes-requested\",\"items\":[\x7b\"file\":\"a\",\"severity\":\"nit\",\"comment\":\"x\"\x7d]\x7d"

/-- A raw reviewer output with one blocking (`bug`) finding. -/
def bugFindingRaw : String :=
  "\x7b\"verdict\": \"changes-requested\", \"items\": [\x7b\"file\": \"a.py\", \"severity\": \"bug\", \"comment\": \"crash\"\x7d]\x7d"

/-- The epic body of the spec's Scenario C. -/
def scenarioCBody : String :=
  "### Suggested Implementation Order\n1. #10 — first\n2. #11 + #12 — parallel"

/-- An epic body whose first numbered line carries no reference before
the dash separator (only one in the prose after it). -/
def emptyHeaderBody : String :=
  "### Suggested Implementation Order\n1. prep work — see #9\n2. #7 — x"

/-- The dependency map of the spec's Scenario A: #1 with no deps, #2
depends on #1, #3 depends on #1 and #2. -/
def exAcyclic : List (Nat × List Nat) := [(1, []), (2, [1]), (3, [1, 2])]

/-- A dependency map with a 1–2 cycle and an independent node 3. -/
def exCyclic : List (Nat × List Nat) := [(1, [2]), (2, [1]), (3, [])]

/-- Sequential dispatch configuration with `merge_strategy=skip`. -/
def cfgSkip : OrchConfig :=
  { mergeStrategy := .skip, mergeMethod := .squash, mainBranch := "main" }

/-- Sequential dispatch configuration with `merge_strategy=auto`. -/
def cfgAuto : OrchConfig :=
  { mergeStrategy := .auto, mergeMethod := .squash, mainBranch := "main" }

/-- An approved pipeline outcome holding an open PR. -/
def stApproved1 : OrchState :=
  { issueSlug := "1", status := .approved, pr := some { number := 5, url := "u" } }

/-- A coder oracle whose every invocation succeeds. -/
def apOK : Nat → AgentResult' := fun _ => { success := true, output := "", error := "" }

/-- A reviewer oracle that always approves. -/
def rvApprove : Nat → ReviewResult' := fun _ => { verdict := .approved, comments := "", items := [] }

/-- The pipeline-state slice on entry to the review phase of a fresh run
(`PipelineState` is created at line 178 with empty history). -/
def st0 : PipeState := { status := .pending, currentRound := 0, reviewHistory := [], error := "" }

/-! ## Theorems -/

/-- Helper for C2: the final stage of `_parse_review` never returns
`approved` alongside a non-empty items list — the guard at lines 352–356
overrides such a verdict to `changes-requested`. -/
theorem reviewFromData_items_guard (d : Json) :
    (reviewFromData d).items ≠ [] → (reviewFromData d).verdict ≠ ReviewVerdict'.approved := by
  intro h
  have hne : ¬(itemsOfData d).isEmpty := by
    simpa [reviewFromData, List.isEmpty_iff] using h
  by_cases hv : verdictRaw d = ReviewVerdict'.approved
  · simp [reviewFromData, hv, hne]
  · simp [reviewFromData, hv, hne]

/-- C2: for every raw reviewer output, if the parsed `ReviewResult` has a
non-empty findings (items) list then its verdict is not `approved`. -/
theorem parse_review_nonempty_findings_not_approved (raw : String)
    (h : (parseReview raw).items ≠ []) :
    (parseReview raw).verdict ≠ ReviewVerdict'.approved := by
  unfold parseReview parseReviewChars at h ⊢
  cases hf : firstExtract (collectCandidates raw.data) with
  | some d =>
    simp only [hf] at h ⊢
    exact reviewFromData_items_guard d h
  | none =>
    simp only [hf] at h
    simp [parseFailResult] at h

/-- Witness for C2: a concrete raw output with one `bug` finding parses to
non-empty items and a verdict other than `approved`. -/
theorem parse_review_nonempty_findings_not_approved_witness :
    (parseReview bugFindingRaw).items ≠ [] ∧
      (parseReview bugFindingRaw).verdict ≠ ReviewVerdict'.approved :=
  ⟨by decide, parse_review_nonempty_findings_not_approved bugFindingRaw (by decide)⟩

/-- C1: evaluating `_parse_review` at the spec's Scenario B input.  The
code returns `changes-requested` and quotes the nit item in the
coder-facing feedback text — not the `approved` verdict with
feedback-excluded nits that the spec (and the repo's own tests
`test_reviewer_nits_only_treated_as_approved` and
`test_reviewer_parse_severity`) require. -/
theorem parse_review_scenarioB_nit_not_approved :
    parseReview scenarioBRaw =
      { verdict := ReviewVerdict'.changesRequested
        comments := "- [nit] a: x"
        items := [{ file := "a", comment := "x", severity := ReviewSeverity'.nit }] } ∧
    (parseReview scenarioBRaw).verdict ≠ ReviewVerdict'.approved ∧
    (parseReview scenarioBRaw).items.length = 1 := by decide

/-- Counterexample for C5: after the timeout handler runs on a process
group with one member besides the direct child, that member survives —
`proc.kill()` signals only the child, so the claim's "leaving no
surviving process in the group" fails. -/
theorem run_streaming_timeout_group_member_survives :
    (runStreamingOnTimeout { leaderAlive := true, otherMembers := 1 } "").1.otherMembers = 1 ∧
    (runStreamingOnTimeout { leaderAlive := true, otherMembers := 1 } "").1.leaderAlive = false := by
  decide

/-- C5 (amended): on timeout the runner kills the spawned process itself
(other members of its process group are not signalled) and returns the
distinguished timed-out result — returncode sentinel `-1`, stdout so far,
stderr `"Agent timed out"` — as a normal value, never an exception. -/
theorem run_streaming_timeout_sentinel_no_exception (s : ProcGroup) (out : String) :
    runStreamingOnTimeout s out =
      ({ leaderAlive := false, otherMembers := s.otherMembers },
       StreamOutcome.ok { returncode := -1, stdout := out, stderr := "Agent timed out" }) := rfl

/-- C7: the `finally:` block of `run_pipeline` deletes the checkpoint
file and removes the worktree exactly on terminal success (`approved` or
`merged`), and leaves the workspace untouched on terminal failure. -/
theorem pipeline_terminal_cleanup (fs : WorkspaceFS) :
    finalizeCleanup .approved true fs = { checkpointExists := false, worktreeExists := false } ∧
    finalizeCleanup .merged true fs = { checkpointExists := false, worktreeExists := false } ∧
    ∀ hasWorktree : Bool, finalizeCleanup .failed hasWorktree fs = fs := by
  refine ⟨rfl, rfl, ?_⟩
  intro b; cases b <;> rfl

/-- C10: in single-pass mode the review phase returns immediately with
status `approved`, an unchanged review history and round counter, and an
empty external trace — the reviewer is never invoked. -/
theorem single_pass_skips_review (mx : Nat) (saved : SavedState)
    (ap : Nat → AgentResult') (rv : Nat → ReviewResult') (st : PipeState) :
    reviewPhase { maxReviewRounds := mx, iterationMode := .singlePass } saved ap rv st =
      ({ st with status := .approved }, []) := rfl

/-- Counterexample for C6: under `merge_strategy=skip`, an approved issue
triggers neither a merge action nor the fast-forward of the local base
branch — `_merge_step` returns before `_update_main` — while the claim
has the dispatcher fast-forward after applying the policy for every
approved issue. -/
theorem sequential_skip_no_fast_forward :
    (runSequential cfgSkip [stApproved1]).2 = [DispatchEvent.runPipelineCall "1"] ∧
    DispatchEvent.updateMainCall "main" ∉ (runSequential cfgSkip [stApproved1]).2 ∧
    (runSequential cfgSkip [stApproved1]).1 = [stApproved1] := by decide

/-- C6 (amended): in sequential dispatch, after an approved issue with an
open PR, the dispatcher performs exactly the merge policy's external
effects before any event of the next issue: `auto` merges with the
configured method and then fast-forwards the base branch, `wait` polls
until merged and then fast-forwards, `skip` performs neither and leaves
the PR open. -/
theorem sequential_approved_policy_then_next (cfg : OrchConfig) (st : OrchState)
    (rest : List OrchState) (pr : PullRequestInfo')
    (hap : st.status = PipelineStatus'.approved) (hpr : st.pr = some pr) :
    (runSequential cfg (st :: rest)).2 =
      DispatchEvent.runPipelineCall st.issueSlug ::
        (specPolicyEvents cfg pr ++ (runSequential cfg rest).2) := by
  have hcond : ¬(st.status ≠ PipelineStatus'.approved) := by simp [hap]
  cases hcs : cfg.mergeStrategy with
  | skip => simp [runSequential, hcond, mergeStep, hcs, hpr, specPolicyEvents]
  | auto => simp [runSequential, hcond, mergeStep, hcs, hpr, specPolicyEvents]
  | wait => simp [runSequential, hcond, mergeStep, hcs, hpr, specPolicyEvents]

/-- Witness for C6 (amended): with `auto`/`squash`, one approved issue
with PR #5 produces exactly pipeline run, merge of #5 by squash, then the
fast-forward of `main`. -/
theorem sequential_approved_policy_then_next_witness :
    (runSequential cfgAuto [stApproved1]).2 =
      [DispatchEvent.runPipelineCall "1", DispatchEvent.mergePRCall 5 MergeMethod'.squash,
       DispatchEvent.updateMainCall "main"] :=
  (sequential_approved_policy_then_next cfgAuto stApproved1 []
    { number := 5, url := "u" } rfl rfl).trans (by decide)

/-- Helper for C9: the per-line group collection of
`_parse_implementation_order` keeps, in order, the reference lists of the
numbered lines whose header portion has at least one reference —
equivalently, the spec-words groups with the empty ones removed. -/
theorem filterMap_lineGroup_eq (lines : List (List Char)) :
    lines.filterMap lineGroup =
      (((lines.map stripPy).filter isNumberedLine).map
        (fun s => findRefs (headerPart s))).filter (fun g => !g.isEmpty) := by
  induction lines with
  | nil => rfl
  | cons l t ih =>
    simp only [List.filterMap_cons, List.map_cons]
    by_cases hn : isNumberedLine (stripPy l)
    · by_cases hr : (findRefs (headerPart (stripPy l))).isEmpty
      · simp [lineGroup, hn, hr, ih]
      · simp [lineGroup, hn, hr, ih]
    · simp [lineGroup, hn, ih]

/-- Counterexample for C9: a body whose first numbered line has no
reference before the dash separator (`"1. prep work — see #9"`).  Under
the claim's words that line contributes a group (with exactly the — here
zero — pre-separator references), but the code skips it: the parsed
groups are `[[7]]`, not `[[], [7]]`. -/
theorem implementation_order_empty_header_line :
    parseImplementationOrder (chrs emptyHeaderBody) = some [[7]] ∧
    specSuggestedOrderGroups (chrs emptyHeaderBody) = [[], [7]] ∧
    parseImplementationOrder (chrs emptyHeaderBody) ≠
      some (specSuggestedOrderGroups (chrs emptyHeaderBody)) := by decide

/-- C9 (amended): whenever `_parse_implementation_order` returns groups,
they are exactly the spec-described per-numbered-line reference lists
(references before the dash separator only) with the reference-free lines
contributing no group, and at least one group is present. -/
theorem implementation_order_groups_refine_spec (body : List Char) (gs : List (List Nat))
    (h : parseImplementationOrder body = some gs) :
    gs = (specSuggestedOrderGroups body).filter (fun g => !g.isEmpty) ∧ gs ≠ [] := by
  unfold parseImplementationOrder at h
  cases hc : sectionCapture body with
  | none => rw [hc] at h; cases h
  | some block =>
    rw [hc] at h
    simp only [] at h
    by_cases hg : ((splitLinesPy block []).filterMap lineGroup).isEmpty
    · rw [if_pos hg] at h; cases h
    · rw [if_neg hg] at h
      cases h
      refine ⟨?_, ?_⟩
      · unfold specSuggestedOrderGroups
        rw [hc]
        exact filterMap_lineGroup_eq (splitLinesPy block [])
      · intro hnil
        rw [hnil] at hg
        exact hg rfl

/-- Witness for C9 (amended): the spec's Scenario C body parses to
`[[10], [11, 12]]`, which matches the spec-described groups. -/
theorem implementation_order_scenarioC_witness :
    parseImplementationOrder (chrs scenarioCBody) = some [[10], [11, 12]] ∧
    ([[10], [11, 12]] : List (List Nat)) =
      (specSuggestedOrderGroups (chrs scenarioCBody)).filter (fun g => !g.isEmpty) ∧
    ([[10], [11, 12]] : List (List Nat)) ≠ [] := by
  have h := implementation_order_groups_refine_spec (chrs scenarioCBody) [[10], [11, 12]] (by decide)
  exact ⟨by decide, h.1, h.2⟩

/-- Helper for C8: a loop iteration with no pending feedback and fuel
left always begins with the git sync and a review request for the current
round, whatever the verdict and coder outcome. -/
theorem reviewLoop_fresh_round_starts_review (cfg : PipeConfig) (ap : Nat → AgentResult')
    (rv : Nat → ReviewResult') (k roundNum ai ri : Nat) (last : String) (st : PipeState) :
    (reviewLoop cfg ap rv (k + 1) roundNum ai ri "" last st).2.take 2 =
      [PipeEvent.gitSyncEv, PipeEvent.reviewRequest roundNum] := by
  unfold reviewLoop
  cases hrv : (rv ri).verdict with
  | approved => simp [hrv]
  | error => simp [hrv]
  | changesRequested =>
    by_cases hs : (ap ai).success <;> simp [hrv, hs]

/-- Helper for C8: one loop iteration with pending feedback and a
succeeding coder invocation — apply, checkpoint, continue at the next
round. -/
theorem reviewLoop_pending_step (cfg : PipeConfig) (ap : Nat → AgentResult')
    (rv : Nat → ReviewResult') (k roundNum ai ri : Nat) (pending last : String) (st : PipeState)
    (hp : pending ≠ "") (hap : (ap ai).success = true) :
    reviewLoop cfg ap rv (k + 1) roundNum ai ri pending last st =
      ((reviewLoop cfg ap rv k (roundNum + 1) (ai + 1) ri "" last
          { st with status := .implementing }).1,
       PipeEvent.applyFeedbackCall pending roundNum ::
         PipeEvent.checkpointWrite "feedback_applied" roundNum last ::
         (reviewLoop cfg ap rv k (roundNum + 1) (ai + 1) ri "" last
            { st with status := .implementing }).2) := by
  conv_lhs => unfold reviewLoop
  rw [if_pos hp]
  simp [hap]

/-- C8 (amended): resuming with a checkpoint `step="reviewed"`, stored
round `N` within the configured bound and non-empty stored feedback, the
engine re-enters the loop at round `N`: its first external actions are
the coder invocation on the stored feedback and (as that invocation
succeeds) the `feedback_applied` checkpoint for round `N`; any fresh
review request comes only after them — at round `N+1` when rounds
remain. -/
theorem resume_reviewed_feedback_first (mx N : Nat) (F : String)
    (ap : Nat → AgentResult') (rv : Nat → ReviewResult') (st : PipeState)
    (hF : F ≠ "") (hN : N ≤ mx) (hap : (ap 0).success = true) :
    ((reviewPhase { maxReviewRounds := mx, iterationMode := .full }
        { step := "reviewed", reviewRound := N, reviewComments := F } ap rv st).2.take 2 =
      [PipeEvent.applyFeedbackCall F N, PipeEvent.checkpointWrite "feedback_applied" N F]) ∧
    (N + 1 ≤ mx →
      (reviewPhase { maxReviewRounds := mx, iterationMode := .full }
          { step := "reviewed", reviewRound := N, reviewComments := F } ap rv st).2.take 4 =
        [PipeEvent.applyFeedbackCall F N, PipeEvent.checkpointWrite "feedback_applied" N F,
         PipeEvent.gitSyncEv, PipeEvent.reviewRequest (N + 1)]) := by
  have hphase : reviewPhase { maxReviewRounds := mx, iterationMode := .full }
      { step := "reviewed", reviewRound := N, reviewComments := F } ap rv st =
      reviewLoop { maxReviewRounds := mx, iterationMode := .full } ap rv (mx + 1 - N) N 0 0 F F st := by
    simp [reviewPhase]
  obtain ⟨k, hk⟩ : ∃ k, mx + 1 - N = k + 1 := ⟨mx - N, by omega⟩
  have hstep := reviewLoop_pending_step { maxReviewRounds := mx, iterationMode := .full }
    ap rv k N 0 0 F F st hF hap
  constructor
  · rw [hphase, hk, hstep]
    simp [List.take_succ_cons]
  · intro hN1
    have hk2 : k = (mx - N - 1) + 1 := by omega
    rw [hphase, hk, hstep, hk2]
    simp only [List.take_succ_cons]
    rw [reviewLoop_fresh_round_starts_review]

/-- Counterexample for C8: the claim as stated fails in two corners of
the code.  With stored feedback `""` (a falsy string), the resumed loop
skips the apply branch entirely: the first action is the git sync and a
fresh review at round 1, and the coder is never invoked.  With a stored
round beyond `max_review_rounds`, the loop body never runs: the run fails
as exhausted with no external action at all. -/
theorem resume_reviewed_claim_counterexample :
    (reviewPhase { maxReviewRounds := 4, iterationMode := .full }
        { step := "reviewed", reviewRound := 1, reviewComments := "" } apOK rvApprove st0).2 =
      [PipeEvent.gitSyncEv, PipeEvent.reviewRequest 1] ∧
    (reviewPhase { maxReviewRounds := 4, iterationMode := .full }
        { step := "reviewed", reviewRound := 5, reviewComments := "fix" } apOK rvApprove st0).2 = [] ∧
    (reviewPhase { maxReviewRounds := 4, iterationMode := .full }
        { step := "reviewed", reviewRound := 5, reviewComments := "fix" } apOK rvApprove st0).1.status =
      PipelineStatus'.failed := by decide

/-- Witness for C8 (amended) at `max_review_rounds=4`, round 2 and
feedback `"fix x"`. -/
theorem resume_reviewed_feedback_first_witness :
    ((reviewPhase { maxReviewRounds := 4, iterationMode := .full }
        { step := "reviewed", reviewRound := 2, reviewComments := "fix x" } apOK rvApprove st0).2.take 2 =
      [PipeEvent.applyFeedbackCall "fix x" 2, PipeEvent.checkpointWrite "feedback_applied" 2 "fix x"]) ∧
    ((reviewPhase { maxReviewRounds := 4, iterationMode := .full }
        { step := "reviewed", reviewRound := 2, reviewComments := "fix x" } apOK rvApprove st0).2.take 4 =
      [PipeEvent.applyFeedbackCall "fix x" 2, PipeEvent.checkpointWrite "feedback_applied" 2 "fix x",
       PipeEvent.gitSyncEv, PipeEvent.reviewRequest 3]) := by
  have h := resume_reviewed_feedback_first 4 2 "fix x" apOK rvApprove st0
    (by decide) (by decide) (by decide)
  exact ⟨h.1, h.2 (by decide)⟩

/-! ### Kahn batching lemmas (C3/C4) -/

/-- `List.contains` agrees with membership over `Nat`. -/
theorem contains_iff (l : List Nat) (a : Nat) : l.contains a = true ↔ a ∈ l :=
  List.elem_iff

/-- `countIn` depends only on the membership of the reference set. -/
theorem countIn_congr (s s' ds : List Nat) (h : ∀ d, d ∈ s ↔ d ∈ s') :
    countIn s ds = countIn s' ds := by
  unfold countIn
  refine List.countP_congr ?_
  intro d _
  simp only [contains_iff]
  exact h d

/-- `countIn` vanishes exactly when no listed dependency is in the set. -/
theorem countIn_eq_zero {s ds : List Nat} :
    countIn s ds = 0 ↔ ∀ d ∈ ds, d ∉ s := by
  unfold countIn
  rw [List.countP_eq_zero]
  simp only [contains_iff]

/-- Splitting `countIn` along a disjoint cover of the reference set. -/
theorem countIn_split (ds rem rem' ready : List Nat)
    (hcov : ∀ d, d ∈ rem ↔ d ∈ rem' ∨ d ∈ ready)
    (hdis : ∀ d, d ∈ rem' → d ∉ ready) :
    countIn rem ds = countIn rem' ds + countIn ready ds := by
  induction ds with
  | nil => rfl
  | cons d ds ih =>
    unfold countIn at ih ⊢
    rw [List.countP_cons, List.countP_cons, List.countP_cons, ih]
    by_cases h1 : d ∈ rem'
    · have h2 : d ∉ ready := hdis d h1
      have h3 : d ∈ rem := (hcov d).2 (Or.inl h1)
      simp [contains_iff, h1, h2, h3]
      omega
    · by_cases h2 : d ∈ ready
      · have h3 : d ∈ rem := (hcov d).2 (Or.inr h2)
        simp [contains_iff, h1, h2, h3]
        omega
      · have h3 : d ∉ rem := by
          intro hd
          rcases (hcov d).1 hd with h | h
          · exact h1 h
          · exact h2 h
        simp [contains_iff, h1, h2, h3]

/-- `find?` by key commutes with a key-preserving map. -/
theorem find?_map_keylike (g : Nat × Nat → Nat × Nat) (hg : ∀ p, (g p).1 = p.1)
    (l : List (Nat × Nat)) (m : Nat) :
    (l.map g).find? (fun p => p.1 == m) = (l.find? (fun p => p.1 == m)).map g := by
  induction l with
  | nil => rfl
  | cons a t ih =>
    simp only [List.map_cons, List.find?_cons]
    rw [hg a]
    cases h : (a.1 == m)
    · simp only [h]
      exact ih
    · simp only [h]
      rfl

/-- Lookup in a cons of the in-degree table. -/
theorem alookup_cons (a : Nat × Nat) (l : List (Nat × Nat)) (m : Nat) :
    alookup (a :: l) m = if (a.1 == m) = true then a.2 else alookup l m := by
  unfold alookup
  rw [List.find?_cons]
  cases h : (a.1 == m)
  · simp [h]
  · simp [h]

/-- Lookup after one decrement round of `decIndeg`. -/
theorem alookup_decIndeg (deps : List (Nat × List Nat)) (ready rem' : List Nat)
    (indeg : List (Nat × Nat)) (m : Nat) :
    alookup (decIndeg deps ready rem' indeg) m =
      if rem'.contains m && (depsOf deps m).any (fun d => ready.contains d) then
        alookup indeg m - countIn ready (depsOf deps m)
      else alookup indeg m := by
  unfold alookup decIndeg
  rw [find?_map_keylike _ (by intro p; split <;> rfl)]
  cases hf : indeg.find? (fun p => p.1 == m) with
  | none => simp
  | some q =>
    have hfs := List.find?_some hf
    have hq : q.1 = m := by simpa using hfs
    simp only [Option.map_some']
    rw [hq]
    by_cases hcond :
        (rem'.contains m && (depsOf deps m).any (fun d => ready.contains d)) = true
    · rw [if_pos hcond, if_pos hcond]
    · rw [if_neg hcond, if_neg hcond]

/-- Lookup in the in-degree table built as a graph of a function. -/
theorem alookup_graph (f : Nat → Nat) (issues : List Nat) (m : Nat) (hm : m ∈ issues) :
    alookup (issues.map fun n => (n, f n)) m = f m := by
  induction issues with
  | nil => cases hm
  | cons n t ih =>
    simp only [List.map_cons]
    rw [alookup_cons]
    by_cases h : n = m
    · subst h
      simp
    · have hb : (((n, f n) : Nat × Nat).1 == m) = false := by
        simp [h]
      rw [hb]
      simp only [Bool.false_eq_true, if_false]
      refine ih ?_
      rcases List.mem_cons.1 hm with rfl | hmt
      · exact absurd rfl h
      · exact hmt

/-- `insertSorted` permutes to a cons. -/
theorem insertSorted_perm (n : Nat) (l : List Nat) :
    (insertSorted n l).Perm (n :: l) := by
  induction l with
  | nil => exact List.Perm.refl _
  | cons m t ih =>
    unfold insertSorted
    by_cases h : n ≤ m
    · rw [if_pos h]
    · rw [if_neg h]
      exact (ih.cons m).trans (List.Perm.swap n m t)

/-- `sortNat` is a permutation of its input. -/
theorem sortNat_perm (l : List Nat) : (sortNat l).Perm l := by
  induction l with
  | nil => exact List.Perm.refl _
  | cons a t ih =>
    exact (insertSorted_perm a (sortNat t)).trans (ih.cons a)

/-- Splitting the remaining nodes into the ready set and the rest is a
permutation. -/
theorem filter_ready_perm (remaining : List Nat) (p : Nat → Bool) :
    ((remaining.filter p) ++
      remaining.filter (fun n => !((remaining.filter p).contains n))).Perm remaining := by
  have h1 : remaining.filter (fun n => !((remaining.filter p).contains n)) =
      remaining.filter (fun n => !(p n)) := by
    refine List.filter_congr ?_
    intro x hx
    cases hp : p x
    · have hnm : x ∉ remaining.filter p := by
        simp [List.mem_filter, hp]
      have hc : (remaining.filter p).contains x = false := by
        rw [Bool.eq_false_iff]
        intro hcx
        exact hnm ((contains_iff _ _).1 hcx)
      rw [hc]
    · have hmem : x ∈ remaining.filter p := List.mem_filter.2 ⟨hx, hp⟩
      have hc : (remaining.filter p).contains x = true := (contains_iff _ _).2 hmem
      rw [hc]
  rw [h1]
  exact List.filter_append_perm p remaining

/-- `kahnLoop` on an exhausted remaining set. -/
theorem kahnLoop_nil (deps : List (Nat × List Nat)) (fuel : Nat) (indeg : List (Nat × Nat)) :
    kahnLoop deps (fuel + 1) indeg [] = [] := rfl

/-- The cycle branch of `kahnLoop` (C4's second half): nodes remain and
none has zero unresolved in-degree, so all of them are emitted as the
single final group and the loop stops. -/
theorem kahnLoop_dump (deps : List (Nat × List Nat)) (fuel : Nat)
    (indeg : List (Nat × Nat)) (remaining : List Nat) (hne : remaining ≠ [])
    (hready : remaining.filter (fun n => alookup indeg n == 0) = []) :
    kahnLoop deps (fuel + 1) indeg remaining = [remaining] := by
  conv_lhs => unfold kahnLoop
  simp [List.isEmpty_iff, hne, hready]

/-- The progress branch of `kahnLoop`. -/
theorem kahnLoop_step (deps : List (Nat × List Nat)) (fuel : Nat)
    (indeg : List (Nat × Nat)) (remaining : List Nat) (hne : remaining ≠ [])
    (hready : remaining.filter (fun n => alookup indeg n == 0) ≠ []) :
    kahnLoop deps (fuel + 1) indeg remaining =
      (remaining.filter (fun n => alookup indeg n == 0)) ::
        kahnLoop deps fuel
          (decIndeg deps (remaining.filter (fun n => alookup indeg n == 0))
            (remaining.filter
              (fun n => !((remaining.filter (fun n => alookup indeg n == 0)).contains n)))
            indeg)
          (remaining.filter
            (fun n => !((remaining.filter (fun n => alookup indeg n == 0)).contains n))) := by
  conv_lhs => unfold kahnLoop
  simp [List.isEmpty_iff, hne, hready]

/-- The rest after removing a non-empty ready set is strictly shorter. -/
theorem rem'_length_lt (remaining : List Nat) (p : Nat → Bool)
    (hready : remaining.filter p ≠ []) :
    (remaining.filter (fun n => !((remaining.filter p).contains n))).length <
      remaining.length := by
  have hl := (filter_ready_perm remaining p).length_eq
  rw [List.length_append] at hl
  have hp : 0 < (remaining.filter p).length := List.length_pos.mpr hready
  omega

/-- Every `kahnLoop` run with sufficient fuel emits exactly the remaining
nodes (C4's first half: the loop always terminates with the whole node
set distributed over the groups). -/
theorem kahnLoop_join_perm (deps : List (Nat × List Nat)) :
    ∀ (fuel : Nat) (indeg : List (Nat × Nat)) (remaining : List Nat),
      remaining.length < fuel →
      ((kahnLoop deps fuel indeg remaining).flatten).Perm remaining := by
  intro fuel
  induction fuel with
  | zero => intro indeg remaining h; exact absurd h (Nat.not_lt_zero _)
  | succ f ih =>
    intro indeg remaining hlen
    by_cases hne : remaining = []
    · subst hne
      rw [kahnLoop_nil]
      exact List.Perm.refl _
    · by_cases hready : remaining.filter (fun n => alookup indeg n == 0) = []
      · rw [kahnLoop_dump deps f indeg remaining hne hready]
        simp
      · rw [kahnLoop_step deps f indeg remaining hne hready]
        rw [List.flatten_cons]
        have hlen2 := rem'_length_lt remaining (fun n => alookup indeg n == 0) hready
        have ihh := ih
          (decIndeg deps (remaining.filter (fun n => alookup indeg n == 0))
            (remaining.filter
              (fun n => !((remaining.filter (fun n => alookup indeg n == 0)).contains n)))
            indeg)
          (remaining.filter
            (fun n => !((remaining.filter (fun n => alookup indeg n == 0)).contains n)))
          (by omega)
        exact (List.Perm.append_left _ ihh).trans
          (filter_ready_perm remaining (fun n => alookup indeg n == 0))

/-- C4: `_topological_groups` terminates on every dependency map — its
groups distribute exactly the (deduplicated, sorted) node set — and
whenever some nodes remain but none has zero unresolved in-degree, all of
them are emitted together as the single final group and the loop stops. -/
theorem topological_groups_terminates_cycle_dump :
    (∀ deps : List (Nat × List Nat),
      ((topologicalGroups deps).flatten).Perm (sortNat (nodesOf deps))) ∧
    (∀ (deps : List (Nat × List Nat)) (fuel : Nat) (indeg : List (Nat × Nat))
        (remaining : List Nat),
      remaining ≠ [] → remaining.filter (fun n => alookup indeg n == 0) = [] →
      kahnLoop deps (fuel + 1) indeg remaining = [remaining]) := by
  constructor
  · intro deps
    have hlen : (sortNat (nodesOf deps)).length < (nodesOf deps).length + 1 := by
      rw [(sortNat_perm (nodesOf deps)).length_eq]
      omega
    exact kahnLoop_join_perm deps _ _ _ hlen
  · intro deps fuel indeg remaining hne hready
    exact kahnLoop_dump deps fuel indeg remaining hne hready

/-- Witness for C4 on a concrete cyclic map (`1 ↔ 2`, free `3`): the run
terminates with groups `[[3], [1, 2]]`, and the loop's cycle branch dumps
`[1, 2]` as one final group. -/
theorem topological_groups_terminates_cycle_dump_witness :
    topologicalGroups exCyclic = [[3], [1, 2]] ∧
    ((topologicalGroups exCyclic).flatten).Perm (sortNat (nodesOf exCyclic)) ∧
    kahnLoop exCyclic 1 [(1, 1), (2, 1)] [1, 2] = [[1, 2]] := by
  refine ⟨by decide, topological_groups_terminates_cycle_dump.1 exCyclic,
    topological_groups_terminates_cycle_dump.2 exCyclic 0 [(1, 1), (2, 1)] [1, 2]
      (by decide) (by decide)⟩

/-- A non-empty list of naturals has a rank-minimal member. -/
theorem exists_rank_min (rank : Nat → Nat) (l : List Nat) (hne : l ≠ []) :
    ∃ n ∈ l, ∀ m ∈ l, rank n ≤ rank m := by
  induction l with
  | nil => exact absurd rfl hne
  | cons a t ih =>
    by_cases ht : t = []
    · subst ht
      exact ⟨a, List.mem_singleton_self a, by simp⟩
    · obtain ⟨b, hb, hmin⟩ := ih ht
      by_cases hab : rank a ≤ rank b
      · refine ⟨a, List.mem_cons_self a t, ?_⟩
        intro m hm
        rcases List.mem_cons.1 hm with rfl | hm'
        · exact Nat.le_refl _
        · exact Nat.le_trans hab (hmin m hm')
      · refine ⟨b, List.mem_cons_of_mem a hb, ?_⟩
        intro m hm
        rcases List.mem_cons.1 hm with rfl | hm'
        · omega
        · exact hmin m hm'

/-- On an acyclic graph the ready set of a non-empty remaining set is
never empty: a rank-minimal remaining node has no remaining dependency. -/
theorem ready_ne_nil_of_acyclic (deps : List (Nat × List Nat)) (nodes : List Nat)
    (rank : Nat → Nat)
    (hr : ∀ n ∈ nodes, ∀ d ∈ depsOf deps n, d ∈ nodes → rank d < rank n)
    (indeg : List (Nat × Nat)) (remaining : List Nat)
    (hsub : ∀ m ∈ remaining, m ∈ nodes)
    (hinv : KahnInv deps indeg remaining) (hne : remaining ≠ []) :
    remaining.filter (fun n => alookup indeg n == 0) ≠ [] := by
  obtain ⟨n₀, hn₀, hmin⟩ := exists_rank_min rank remaining hne
  have hz : countIn remaining (depsOf deps n₀) = 0 := by
    by_contra hnz
    have hex : ∃ d ∈ depsOf deps n₀, d ∈ remaining := by
      by_contra hall
      push_neg at hall
      exact hnz (countIn_eq_zero.mpr hall)
    obtain ⟨d, hd, hdr⟩ := hex
    have h1 := hr n₀ (hsub n₀ hn₀) d hd (hsub d hdr)
    have h2 := hmin d hdr
    omega
  have hlz : alookup indeg n₀ = 0 := by
    rw [hinv n₀ hn₀]
    exact hz
  exact List.ne_nil_of_mem (List.mem_filter.2 ⟨hn₀, by simp [hlz]⟩)

/-- The Kahn invariant survives one emit-and-decrement round. -/
theorem KahnInv_preserved (deps : List (Nat × List Nat)) (indeg : List (Nat × Nat))
    (remaining : List Nat) (hinv : KahnInv deps indeg remaining) :
    KahnInv deps
      (decIndeg deps (remaining.filter fun n => alookup indeg n == 0)
        (remaining.filter
          (fun n => !((remaining.filter fun n => alookup indeg n == 0).contains n)))
        indeg)
      (remaining.filter
        (fun n => !((remaining.filter fun n => alookup indeg n == 0).contains n))) := by
  unfold KahnInv
  intro m hm
  have hmrem : m ∈ remaining := (List.mem_filter.1 hm).1
  have hcov : ∀ d, d ∈ remaining ↔
      (d ∈ remaining.filter
        (fun n => !((remaining.filter fun n => alookup indeg n == 0).contains n)) ∨
       d ∈ remaining.filter fun n => alookup indeg n == 0) := by
    intro d
    constructor
    · intro hd
      by_cases hc : d ∈ remaining.filter fun n => alookup indeg n == 0
      · exact Or.inr hc
      · refine Or.inl (List.mem_filter.2 ⟨hd, ?_⟩)
        have hcf : (remaining.filter fun n => alookup indeg n == 0).contains d = false := by
          rw [Bool.eq_false_iff]
          intro hcx
          exact hc ((contains_iff _ _).1 hcx)
        rw [hcf]
        rfl
    · rintro (hd | hd)
      · exact (List.mem_filter.1 hd).1
      · exact (List.mem_filter.1 hd).1
  have hdis : ∀ d,
      d ∈ remaining.filter
        (fun n => !((remaining.filter fun n => alookup indeg n == 0).contains n)) →
      d ∉ remaining.filter fun n => alookup indeg n == 0 := by
    intro d hd hdr
    have h2 := (List.mem_filter.1 hd).2
    rw [(contains_iff _ _).2 hdr] at h2
    simp at h2
  rw [alookup_decIndeg]
  have hsplit := countIn_split (depsOf deps m) remaining _ _ hcov hdis
  have hbase := hinv m hmrem
  by_cases ha : ((depsOf deps m).any
      (fun d => (remaining.filter fun n => alookup indeg n == 0).contains d)) = true
  · rw [if_pos (by rw [(contains_iff _ _).2 hm, ha]; rfl)]
    omega
  · have hfalse : ((depsOf deps m).any
        (fun d => (remaining.filter fun n => alookup indeg n == 0).contains d)) = false :=
      Bool.eq_false_iff.2 ha
    rw [if_neg (by rw [hfalse, Bool.and_false]; exact Bool.false_ne_true)]
    have hzero : countIn (remaining.filter fun n => alookup indeg n == 0)
        (depsOf deps m) = 0 := by
      rw [countIn_eq_zero]
      intro d hd hdr
      exact ha (List.any_eq_true.mpr ⟨d, hd, (contains_iff _ _).2 hdr⟩)
    omega

/-- Layering of the emitted groups: with the invariant and an acyclic
ranking, every dependency of a group member that is still in scope lies
in a strictly earlier group. -/
theorem kahnLoop_ordered (deps : List (Nat × List Nat)) (nodes : List Nat)
    (rank : Nat → Nat)
    (hr : ∀ n ∈ nodes, ∀ d ∈ depsOf deps n, d ∈ nodes → rank d < rank n) :
    ∀ (fuel : Nat) (indeg : List (Nat × Nat)) (remaining : List Nat),
      remaining.length < fuel →
      (∀ m ∈ remaining, m ∈ nodes) →
      KahnInv deps indeg remaining →
      GroupsOrdered deps remaining (kahnLoop deps fuel indeg remaining) := by
  intro fuel
  induction fuel with
  | zero => intro indeg remaining h; exact absurd h (Nat.not_lt_zero _)
  | succ f ih =>
    intro indeg remaining hlen hsub hinv
    by_cases hne : remaining = []
    · subst hne
      rw [kahnLoop_nil]
      unfold GroupsOrdered
      intro i g hg
      simp at hg
    · have hready := ready_ne_nil_of_acyclic deps nodes rank hr indeg remaining hsub hinv hne
      rw [kahnLoop_step deps f indeg remaining hne hready]
      have hlen2 := rem'_length_lt remaining (fun n => alookup indeg n == 0) hready
      have hsub' : ∀ m ∈ remaining.filter
          (fun n => !((remaining.filter fun n => alookup indeg n == 0).contains n)),
          m ∈ nodes := fun m hm => hsub m (List.mem_filter.1 hm).1
      have ihh := ih
        (decIndeg deps (remaining.filter fun n => alookup indeg n == 0)
          (remaining.filter
            (fun n => !((remaining.filter fun n => alookup indeg n == 0).contains n)))
          indeg)
        (remaining.filter
          (fun n => !((remaining.filter fun n => alookup indeg n == 0).contains n)))
        (by omega) hsub' (KahnInv_preserved deps indeg remaining hinv)
      unfold GroupsOrdered
      intro i g hg n hn d hd hdscope
      cases i with
      | zero =>
        rw [List.getElem?_cons_zero] at hg
        have hge : remaining.filter (fun n => alookup indeg n == 0) = g := by
          injection hg
        subst hge
        have hnr := List.mem_filter.1 hn
        have hz : countIn remaining (depsOf deps n) = 0 := by
          have hb := hinv n hnr.1
          have hzz : alookup indeg n = 0 := by
            have h2 := hnr.2
            simpa using h2
          omega
        exact absurd hdscope (countIn_eq_zero.mp hz d hd)
      | succ i' =>
        rw [List.getElem?_cons_succ] at hg
        by_cases hdr : d ∈ remaining.filter fun n => alookup indeg n == 0
        · exact ⟨0, _, Nat.succ_pos i', List.getElem?_cons_zero, hdr⟩
        · have hdrem' : d ∈ remaining.filter
              (fun n => !((remaining.filter fun n => alookup indeg n == 0).contains n)) := by
            refine List.mem_filter.2 ⟨hdscope, ?_⟩
            have hcf : (remaining.filter fun n => alookup indeg n == 0).contains d = false := by
              rw [Bool.eq_false_iff]
              intro hcx
              exact hdr ((contains_iff _ _).1 hcx)
            rw [hcf]
            rfl
          obtain ⟨j, g', hj, hg', hd'⟩ := ihh i' g hg n hn d hd hdrem'
          exact ⟨j + 1, g', Nat.succ_lt_succ hj,
            by rw [List.getElem?_cons_succ]; exact hg', hd'⟩

/-- C3: on an acyclic dependency map (witnessed by a topological ranking),
`_topological_groups` partitions the node set — the concatenation of its
groups is a duplicate-free permutation of the keys — and every dependency
of a member that is itself a key lies in a strictly earlier group. -/
theorem topological_groups_acyclic_layered (deps : List (Nat × List Nat))
    (hacyc : ∃ rank : Nat → Nat, AcyclicRank deps rank) :
    ((topologicalGroups deps).flatten).Perm (nodesOf deps) ∧
    ((topologicalGroups deps).flatten).Nodup ∧
    GroupsOrdered deps (nodesOf deps) (topologicalGroups deps) := by
  obtain ⟨rank, hrank⟩ := hacyc
  have hperm0 := sortNat_perm (nodesOf deps)
  have hlen : (sortNat (nodesOf deps)).length < (nodesOf deps).length + 1 := by
    rw [hperm0.length_eq]
    omega
  have hjoin : ((topologicalGroups deps).flatten).Perm (sortNat (nodesOf deps)) :=
    kahnLoop_join_perm deps _ _ _ hlen
  have hinv0 : KahnInv deps
      ((nodesOf deps).map fun n => (n, countIn (nodesOf deps) (depsOf deps n)))
      (sortNat (nodesOf deps)) := by
    unfold KahnInv
    intro m hm
    have hmn : m ∈ nodesOf deps := hperm0.mem_iff.1 hm
    rw [alookup_graph _ _ _ hmn]
    exact countIn_congr _ _ _ (fun d => (hperm0.mem_iff).symm)
  have hsub0 : ∀ m ∈ sortNat (nodesOf deps), m ∈ nodesOf deps :=
    fun m hm => hperm0.mem_iff.1 hm
  have hord := kahnLoop_ordered deps (nodesOf deps) rank hrank
    ((nodesOf deps).length + 1) _ _ hlen hsub0 hinv0
  refine ⟨hjoin.trans hperm0, ?_, ?_⟩
  · exact ((hjoin.trans hperm0).symm).nodup (List.nodup_dedup _)
  · unfold GroupsOrdered
    intro i g hg n hn d hd hdn
    exact hord i g hg n hn d hd (hperm0.mem_iff.2 hdn)

/-- Witness for C3 on the spec's Scenario A dependency table (`#2`
depends on `#1`, `#3` on `#1` and `#2`): the groups partition the keys
and come out as `[[1], [2], [3]]`. -/
theorem topological_groups_acyclic_layered_witness :
    ((topologicalGroups exAcyclic).flatten).Perm (nodesOf exAcyclic) ∧
    topologicalGroups exAcyclic = [[1], [2], [3]] := by
  refine ⟨(topological_groups_acyclic_layered exAcyclic
    ⟨fun n => n, by unfold AcyclicRank; decide⟩).1, by decide⟩

end Corbit
